import Mathlib

/-!
A verification development for the i18n message-catalog engine of the
AdoLib repository (`src/i18n/i18n.go`).

Modelling conventions:
* Go maps (`map[string]*Message`, `map[string]map[string]*Message`) are
  embedded as association lists with first-match lookup; Go map insertion
  at a fresh key is list append, and assignment to an existing key is
  `updateFirst`.  Go maps have unique keys, so theorems that need key
  uniqueness take an explicit `Nodup` hypothesis.
* `log.Fatalf` terminates the Go process; every fatal exit is embedded as
  an `Except` error carrying the same identifying information that the
  Go format string interpolates.
* Go's `text/template` engine (package `text/template`, used through
  `Parse`/`Execute`) is external library code; it is embedded for the
  fragment this repository uses: literal text plus field actions
  `\x7b\x7b.Name\x7d\x7d` over `map[string]interface{}` data with string
  values.  With the default `missingkey` option the engine documents
  that a printed missing map key renders as the string "<no value>",
  which `execSeg` reproduces.
* `language.MustParse` (external `golang.org/x/text/language`) is
  abstracted as a boolean validity predicate `validTag`.
* `toml.Unmarshal` (external `BurntSushi/toml`) is abstracted: a file's
  content is either unreadable, unparseable, or an already-parsed
  `TomlValue` tree of string leaves, nested tables, and other values.
-/

namespace I18n

/-- First-match lookup in an association list, the embedding of a Go map
read `m[k]` (missing key gives the zero value, here `none`). -/
def lookupA {α : Type} : List (String × α) → String → Option α
  | [], _ => none
  | (k, v) :: rest, key => if k = key then some v else lookupA rest key

/-- Replace the value at the first occurrence of `key`, the embedding of a
Go map assignment `m[k] = f (m[k])` to an existing key. -/
def updateFirst {α : Type} : List (String × α) → String → (α → α) → List (String × α)
  | [], _, _ => []
  | (k, v) :: rest, key, f =>
    if k = key then (k, f v) :: rest else (k, v) :: updateFirst rest key f

/-- A segment of a compiled template: literal text or a field action
`\x7b\x7b.name\x7d\x7d` (the fragment of Go `text/template` used here). -/
inductive Seg where
  | lit : String → Seg
  | field : String → Seg
  deriving DecidableEq

/-- A compiled template, the embedding of `*template.Template`. -/
abbrev Template := List Seg

/-- Caller-supplied render data, the embedding of
`map[string]interface{}` restricted to string values; a nil map is `[]`. -/
abbrev Data := List (String × String)

/-- The state of a Message's compiled-template slot: the pair of
`parseOnce : sync.Once` and `parsedTemplate *template.Template` in
`i18n.go`.  `uncompiled`: Once not fired; `compiledOk`: Once fired,
parse succeeded; `failed`: Once fired, parse failed (in Go the process
has died by `log.Fatalf`, so the state is terminal). -/
inductive CompileState where
  | uncompiled : CompileState
  | compiledOk : Template → CompileState
  | failed : CompileState
  deriving DecidableEq

/-- The embedding of `type Message struct { Data string; parseOnce
sync.Once; parsedTemplate *template.Template }`. -/
structure Message where
  data : String
  tmpl : CompileState
  deriving DecidableEq

/-- One locale's message table, `map[string]*Message`. -/
abbrev Msgs := List (String × Message)

/-- The catalog `iLocalizer : map[string]map[string]*Message`. -/
abbrev Localizer := List (String × Msgs)

/-- `var leftDelim = "\x7b\x7b"`. -/
def leftDelim : String := "\x7b\x7b"

/-- Does `pat` occur as a prefix of `cs`? (helper for the embedding of
`strings.Contains`). -/
def leadsWith : List Char → List Char → Bool
  | [], _ => true
  | _ :: _, [] => false
  | p :: ps, c :: cs => p = c && leadsWith ps cs

/-- Does `pat` occur as a contiguous substring? (helper for the embedding
of `strings.Contains`). -/
def hasSubstr (pat : List Char) : List Char → Bool
  | [] => leadsWith pat []
  | c :: cs => leadsWith pat (c :: cs) || hasSubstr pat cs

/-- The embedding of `strings.Contains(s, sub)`. -/
def strContains (s sub : String) : Bool :=
  hasSubstr sub.data s.data

/-- Scan the inside of a template action up to the closing delimiter:
returns the action's characters and the remainder after the closing
brace pair, or `none` when the action is never closed. -/
def spanAction : List Char → Option (List Char × List Char)
  | [] => none
  | '}' :: '}' :: rest => some ([], rest)
  | c :: rest =>
    match spanAction rest with
    | none => none
    | some (act, rest') => some (c :: act, rest')

/-- Identifier characters of a template field name. -/
def isIdentChar (c : Char) : Bool :=
  c.isAlphanum || c = '_'

/-- Drop leading spaces. -/
def dropSpaces (cs : List Char) : List Char :=
  cs.dropWhile (fun c => c = ' ')

/-- Parse the body of an action as a field `.Name` (the fragment of the
`text/template` action grammar this repository uses); `none` is a parse
error. -/
def parseFieldName (cs : List Char) : Option String :=
  match dropSpaces cs with
  | '.' :: rest =>
    let name := rest.takeWhile isIdentChar
    let rest' := rest.dropWhile isIdentChar
    if name ≠ [] ∧ dropSpaces rest' = [] then some (String.mk name) else none
  | _ => none

/-- Prepend a literal character onto a template, merging with a leading
literal segment the way the engine's lexer accumulates maximal text
runs. -/
def consLit (c : Char) : Template → Template
  | Seg.lit s :: rest => Seg.lit (String.mk (c :: s.data)) :: rest
  | segs => Seg.lit (String.mk [c]) :: segs

/-- Character scanner for template parsing.  `fuel` is an upper bound on
the number of characters left (the top-level call passes the exact
length, which always suffices since every step consumes at least one
character). -/
def scanAux : Nat → List Char → Except Unit Template
  | _, [] => Except.ok []
  | 0, _ :: _ => Except.error ()
  | fuel + 1, '{' :: '{' :: rest =>
    match spanAction rest with
    | none => Except.error ()
    | some (act, rest') =>
      match parseFieldName act with
      | none => Except.error ()
      | some f =>
        match scanAux fuel rest' with
        | Except.error e => Except.error e
        | Except.ok segs => Except.ok (Seg.field f :: segs)
  | fuel + 1, c :: rest =>
    match scanAux fuel rest with
    | Except.error e => Except.error e
    | Except.ok segs => Except.ok (consLit c segs)

/-- The embedding of `template.New("").Parse(data)` for the fragment of
the template language this repository uses. -/
def parseTemplate (s : String) : Except Unit Template :=
  scanAux s.data.length s.data

/-- Render one segment against the data: a missing map key printed under
the engine's default `missingkey` option renders as "<no value>". -/
def execSeg (d : Data) : Seg → String
  | Seg.lit s => s
  | Seg.field f =>
    match lookupA d f with
    | some v => v
    | none => "<no value>"

/-- The embedding of `parsedTemplate.Execute(&buf, templateDate)`; on the
embedded fragment execution cannot fail. -/
def execute (t : Template) (d : Data) : String :=
  match t with
  | [] => ""
  | seg :: rest => execSeg d seg ++ execute rest d

/-- The fatal exits of `Translate`, each carrying what the corresponding
`log.Fatalf` format string interpolates. -/
inductive TranslateError where
  | unknownLocale : String → TranslateError
  | unknownMessage : String → String → TranslateError
  | parseError : String → String → String → TranslateError
  deriving DecidableEq

deriving instance DecidableEq for Except

/-- Look up a message through both catalog levels. -/
def lookupMessage (loc : Localizer) (lang messageId : String) : Option Message :=
  match lookupA loc lang with
  | none => none
  | some localizer => lookupA localizer messageId

/-- Result of one `Translate` call: the returned string or fatal error,
the catalog after the call (the compiled-template slot is the only thing
that can change), and whether this call ran template parsing (i.e.
whether `parseOnce.Do` executed its body). -/
structure TResult where
  res : Except TranslateError String
  loc : Localizer
  parsed : Bool
  deriving DecidableEq

/-- Write back the (only) mutation `Translate` performs: storing the
outcome of the one-time compilation into the message's slot (in Go this
happens through the `*Message` pointer held by the map). -/
def setMessage (loc : Localizer) (lang messageId : String) (msg : Message) : Localizer :=
  updateFirst loc lang (fun mp => updateFirst mp messageId (fun _ => msg))

/-- The embedding of `Translate(lang, messageId, templateDate)`:
locale lookup, message lookup, the `strings.Contains(message.Data,
leftDelim)` fast path, then the `parseOnce`-guarded compilation and
template execution. -/
def Translate (loc : Localizer) (lang messageId : String) (templateDate : Data) : TResult :=
  match lookupA loc lang with
  | none => ⟨Except.error (TranslateError.unknownLocale lang), loc, false⟩
  | some localizer =>
    match lookupA localizer messageId with
    | none => ⟨Except.error (TranslateError.unknownMessage lang messageId), loc, false⟩
    | some message =>
      if strContains message.data leftDelim then
        match message.tmpl with
        | CompileState.uncompiled =>
          match parseTemplate message.data with
          | Except.error _ =>
            ⟨Except.error (TranslateError.parseError lang messageId message.data),
             setMessage loc lang messageId ⟨message.data, CompileState.failed⟩, true⟩
          | Except.ok t =>
            ⟨Except.ok (execute t templateDate),
             setMessage loc lang messageId ⟨message.data, CompileState.compiledOk t⟩, true⟩
        | CompileState.compiledOk t => ⟨Except.ok (execute t templateDate), loc, false⟩
        | CompileState.failed =>
          ⟨Except.error (TranslateError.parseError lang messageId message.data), loc, false⟩
      else ⟨Except.ok message.data, loc, false⟩

/-- A message on which `Translate` can never again run template parsing:
absent, already out of `uncompiled`, or raw content without the opening
delimiter (its fast path never parses). -/
def notCompilable (loc : Localizer) (lang messageId : String) : Prop :=
  match lookupMessage loc lang messageId with
  | none => True
  | some msg =>
    msg.tmpl ≠ CompileState.uncompiled ∨ strContains msg.data leftDelim = false

/-- The fatal cross-locale inconsistencies of `checkLanguageMap`, each
carrying what the Go error format string interpolates. -/
inductive CheckError where
  | lengthMismatch : String → Nat → String → Nat → CheckError
  | missingKey : String → String → String → CheckError
  deriving DecidableEq

/-- The inner loop `for k := range firstMap { if mp[k] == nil { ... } }`
of `checkLanguageMap`. -/
def checkKeys (lang firstLang : String) (mp : Msgs) : Msgs → Except CheckError Unit
  | [] => Except.ok ()
  | (k, _) :: rest =>
    if (lookupA mp k).isNone then
      Except.error (CheckError.missingKey lang firstLang k)
    else checkKeys lang firstLang mp rest

/-- The loop of `checkLanguageMap` over the non-reference locales. -/
def checkRest (firstLang : String) (firstMap : Msgs) : Localizer → Except CheckError Unit
  | [] => Except.ok ()
  | (lang, mp) :: rest =>
    if mp.length ≠ firstMap.length then
      Except.error (CheckError.lengthMismatch lang mp.length firstLang firstMap.length)
    else
      match checkKeys lang firstLang mp firstMap with
      | Except.error e => Except.error e
      | Except.ok _ => checkRest firstLang firstMap rest

/-- The embedding of `checkLanguageMap`: the first locale iterated is the
reference; every other locale must have the same table length and
contain every reference key. -/
def checkLanguageMap : Localizer → Except CheckError Unit
  | [] => Except.ok ()
  | (firstLang, firstMap) :: rest => checkRest firstLang firstMap rest

mutual
/-- A parsed locale document (the result of `toml.Unmarshal` into
`interface{}`): a string leaf, a nested table, or any other value
(number, boolean, array, ...). -/
inductive TomlValue where
  | str : String → TomlValue
  | table : TomlEntries → TomlValue
  | other : TomlValue
/-- The entries of a parsed table, in iteration order. -/
inductive TomlEntries where
  | nil : TomlEntries
  | cons : String → TomlValue → TomlEntries → TomlEntries
end

/-- The fatal exits of `recGetMessages`, each carrying what the Go
format string interpolates (`unsupported` carries none of the
identifying strings, matching `fmt.Errorf("unsupported data format
%T: %v", ...)` which reports only the value). -/
inductive LoadError where
  | emptyMessage : String → LoadError
  | duplicate : String → String → String → LoadError
  | unsupported : LoadError
  deriving DecidableEq

mutual
/-- The embedding of `recGetMessages(lang, messageId, raw)`, acting on
the locale's table `mp` (in Go, `iLocalizer[lang]`): a string leaf is
checked non-empty and fresh and then inserted; a table recurses with a
dot-joined path; anything else is an unsupported-format error. -/
def recGetMessages (messageId : String) (raw : TomlValue) (mp : Msgs) : Except LoadError Msgs :=
  match raw with
  | TomlValue.str data =>
    if data = "" then Except.error (LoadError.emptyMessage messageId)
    else
      match lookupA mp messageId with
      | some old => Except.error (LoadError.duplicate messageId old.data data)
      | none => Except.ok (mp ++ [(messageId, ⟨data, CompileState.uncompiled⟩)])
  | TomlValue.table entries => recGetEntries messageId entries mp
  | TomlValue.other => Except.error LoadError.unsupported
/-- The `for k, v := range data` loop of `recGetMessages`: each key is
prefixed with `messageId + "."` unless the accumulated id is empty. -/
def recGetEntries (messageId : String) (entries : TomlEntries) (mp : Msgs) : Except LoadError Msgs :=
  match entries with
  | TomlEntries.nil => Except.ok mp
  | TomlEntries.cons k v rest =>
    match recGetMessages (if messageId = "" then k else messageId ++ "." ++ k) v mp with
    | Except.error e => Except.error e
    | Except.ok mp' => recGetEntries messageId rest mp'
end

/-- Split a character list on `'.'` (the embedding of
`strings.Split(name, ".")`). -/
def splitDots : List Char → List (List Char)
  | [] => [[]]
  | '.' :: rest => [] :: splitDots rest
  | c :: rest =>
    match splitDots rest with
    | [] => [[c]]
    | s :: ss => (c :: s) :: ss

/-- The embedding of `strings.Split(fileName, ".")`. -/
def splitName (s : String) : List String :=
  (splitDots s.data).map (fun l => String.mk l)

/-- The outcome of reading and unmarshalling one locale file:
`os.ReadFile` failed, `toml.Unmarshal` failed, or a parsed document. -/
inductive FileContent where
  | unreadable : FileContent
  | unparseable : FileContent
  | parsed : TomlValue → FileContent

/-- One directory entry as `RegisterI18n` sees it. -/
structure LocaleFile where
  name : String
  content : FileContent

/-- The fatal exits of `RegisterI18n`. -/
inductive RegError where
  | dirUnreadable : RegError
  | badFilename : String → RegError
  | invalidTag : String → RegError
  | fileUnreadable : String → RegError
  | unmarshalError : String → RegError
  | loadError : LoadError → RegError
  | checkError : CheckError → RegError
  deriving DecidableEq

/-- The `if iLocalizer[lang] == nil \x7b iLocalizer[lang] = make(...) \x7d`
step of `RegisterI18n`: register the locale with an empty table if it is
new.  Reading `iLocalizer[lang]` afterwards yields the old table or the
fresh empty one, i.e. `(lookupA loc lang).getD []`. -/
def ensureLocale (loc : Localizer) (lang : String) : Localizer :=
  if lookupA loc lang = none then loc ++ [(lang, [])] else loc

/-- The body of `RegisterI18n`'s per-file loop: skip `<name>.go`,
require `<module>.<language>.toml`, validate the language tag
(`language.MustParse`, abstracted as `validTag`), initialize the
locale's table if absent, then read, unmarshal and flatten the file
into the locale's table. -/
def processFile (validTag : String → Bool) (loc : Localizer) (f : LocaleFile) :
    Except RegError Localizer :=
  if (splitName f.name).length = 2 ∧ (splitName f.name).getD 1 "" = "go" then Except.ok loc
  else if ¬ ((splitName f.name).length = 3 ∧ (splitName f.name).getD 2 "" = "toml") then
    Except.error (RegError.badFilename f.name)
  else if ¬ validTag ((splitName f.name).getD 1 "") then
    Except.error (RegError.invalidTag ((splitName f.name).getD 1 ""))
  else
    match f.content with
    | FileContent.unreadable => Except.error (RegError.fileUnreadable f.name)
    | FileContent.unparseable => Except.error (RegError.unmarshalError f.name)
    | FileContent.parsed raw =>
      match recGetMessages "" raw ((lookupA loc ((splitName f.name).getD 1 "")).getD []) with
      | Except.error e => Except.error (RegError.loadError e)
      | Except.ok mp' =>
        Except.ok (updateFirst (ensureLocale loc ((splitName f.name).getD 1 ""))
          ((splitName f.name).getD 1 "") (fun _ => mp'))

/-- The file loop of `RegisterI18n`. -/
def registerFiles (validTag : String → Bool) : List LocaleFile → Localizer →
    Except RegError Localizer
  | [], loc => Except.ok loc
  | f :: fs, loc =>
    match processFile validTag loc f with
    | Except.error e => Except.error e
    | Except.ok loc' => registerFiles validTag fs loc'

/-- The embedding of `RegisterI18n(localeDir)`: `none` stands for an
unreadable directory (`os.ReadDir` failure); otherwise every file is
processed in order starting from the empty catalog and the result is
validated by `checkLanguageMap`. -/
def RegisterI18n (validTag : String → Bool) (dir : Option (List LocaleFile)) :
    Except RegError Localizer :=
  match dir with
  | none => Except.error RegError.dirUnreadable
  | some files =>
    match registerFiles validTag files [] with
    | Except.error e => Except.error e
    | Except.ok loc =>
      match checkLanguageMap loc with
      | Except.error e => Except.error (RegError.checkError e)
      | Except.ok _ => Except.ok loc

mutual
/-- `LeafAt raw path s`: a string leaf `s` sits in the document `raw`
under the nested keys `path`. -/
inductive LeafAt : TomlValue → List String → String → Prop where
  | here (s : String) : LeafAt (TomlValue.str s) [] s
  | table {es : TomlEntries} {path : List String} {s : String} :
      LeafAtEntries es path s → LeafAt (TomlValue.table es) path s
/-- `LeafAtEntries es path s`: a string leaf `s` sits under keys `path`
in one of the entries `es`. -/
inductive LeafAtEntries : TomlEntries → List String → String → Prop where
  | head {k : String} {v : TomlValue} {rest : TomlEntries} {path : List String} {s : String} :
      LeafAt v path s → LeafAtEntries (TomlEntries.cons k v rest) (k :: path) s
  | tail {k : String} {v : TomlValue} {rest : TomlEntries} {path : List String} {s : String} :
      LeafAtEntries rest path s → LeafAtEntries (TomlEntries.cons k v rest) path s
end

/-- The message identifier `recGetMessages` accumulates along `path`
starting from the prefix `mid` (stepping by the code's
`if messageId != "" { k = messageId + "." + k }`). -/
def joinId (mid : String) : List String → String
  | [] => mid
  | k :: rest => joinId (if mid = "" then k else mid ++ "." ++ k) rest

/-- Count how many of a sequence of `Translate` calls run template
parsing for the message at `(lang, messageId)`, threading the catalog
state through the calls. -/
def countCompiles (lang messageId : String) : Localizer → List (String × String × Data) → Nat
  | _, [] => 0
  | loc, (l, m, d) :: rest =>
    let r := Translate loc l m d
    (if l = lang ∧ m = messageId ∧ r.parsed = true then 1 else 0) +
      countCompiles lang messageId r.loc rest

/-- One-step evolution of a single message under `Translate`: the raw
value is unchanged and the compiled-template slot either keeps its value
or leaves `uncompiled`. -/
def msgEvol (m m' : Message) : Prop :=
  m'.data = m.data ∧ (m.tmpl = CompileState.uncompiled ∨ m'.tmpl = m.tmpl)

/-- Catalog evolution under one `Translate` call: same locales in the
same positions, same message identifiers, every message evolving by
`msgEvol`. -/
def catalogEvol (loc loc' : Localizer) : Prop :=
  List.Forall₂ (fun p q => q.1 = p.1 ∧
    List.Forall₂ (fun a b => b.1 = a.1 ∧ msgEvol a.2 b.2) p.2 q.2) loc loc'

/-- The identifiers of a locale's table. -/
def keyList (mp : Msgs) : List String :=
  mp.map Prod.fst

/-- The identifier set of a locale's table. -/
def keySet (mp : Msgs) : Finset String :=
  (keyList mp).toFinset

theorem lookupA_append_left {α : Type} {l : List (String × α)} {k : String} {v : α}
    (h : lookupA l k = some v) (l' : List (String × α)) : lookupA (l ++ l') k = some v := by
  induction l with
  | nil => simp [lookupA] at h
  | cons p rest ih =>
    obtain ⟨a, b⟩ := p
    by_cases hk : a = k
    · simp [lookupA, hk] at h ⊢
      exact h
    · simp [lookupA, hk] at h ⊢
      exact ih h

theorem lookupA_append_of_none {α : Type} {l : List (String × α)} {k : String}
    (h : lookupA l k = none) (l' : List (String × α)) : lookupA (l ++ l') k = lookupA l' k := by
  induction l with
  | nil => simp
  | cons p rest ih =>
    obtain ⟨a, b⟩ := p
    by_cases hk : a = k
    · simp [lookupA, hk] at h
    · simp [lookupA, hk] at h ⊢
      exact ih h

theorem lookupA_updateFirst_self {α : Type} {l : List (String × α)} {key : String} {v : α}
    (f : α → α) (h : lookupA l key = some v) :
    lookupA (updateFirst l key f) key = some (f v) := by
  induction l with
  | nil => simp [lookupA] at h
  | cons p rest ih =>
    obtain ⟨a, b⟩ := p
    by_cases hk : a = key
    · simp [lookupA, updateFirst, hk] at h ⊢
      exact congrArg f h
    · simp [lookupA, updateFirst, hk] at h ⊢
      exact ih h

theorem lookupA_updateFirst_ne {α : Type} {l : List (String × α)} {key k : String}
    (f : α → α) (h : k ≠ key) : lookupA (updateFirst l key f) k = lookupA l k := by
  induction l with
  | nil => rfl
  | cons p rest ih =>
    obtain ⟨a, b⟩ := p
    by_cases hk : a = key
    · subst hk
      have hak : ¬ a = k := fun hc => h hc.symm
      simp [lookupA, updateFirst, hak]
    · by_cases hak : a = k
      · subst hak
        simp [lookupA, updateFirst, hk]
      · simp [lookupA, updateFirst, hk, hak, ih]

theorem lookupA_isSome_iff {α : Type} {l : List (String × α)} {k : String} :
    (lookupA l k).isSome = true ↔ k ∈ l.map Prod.fst := by
  induction l with
  | nil => simp [lookupA]
  | cons p rest ih =>
    obtain ⟨a, b⟩ := p
    by_cases hk : a = k
    · simp [lookupA, hk]
    · have hka : ¬ k = a := fun hc => hk hc.symm
      simp [lookupA, hk, ih, hka]

theorem forall₂_updateFirst {α : Type} (R : α → α → Prop) (hrefl : ∀ a, R a a)
    (l : List (String × α)) (key : String) (f : α → α)
    (hf : ∀ v, lookupA l key = some v → R v (f v)) :
    List.Forall₂ (fun p q => q.1 = p.1 ∧ R p.2 q.2) l (updateFirst l key f) := by
  induction l with
  | nil => simp [updateFirst]
  | cons p rest ih =>
    obtain ⟨a, b⟩ := p
    by_cases hk : a = key
    · simp only [updateFirst, if_pos hk]
      refine List.Forall₂.cons ⟨rfl, hf b ?_⟩ ?_
      · simp [lookupA, hk]
      · refine List.forall₂_same.mpr ?_
        intro x _
        exact ⟨rfl, hrefl x.2⟩
    · simp only [updateFirst, if_neg hk]
      refine List.Forall₂.cons ⟨rfl, hrefl b⟩ ?_
      refine ih ?_
      intro v hv
      refine hf v ?_
      simp [lookupA, hk, hv]

theorem mem_keySet_iff {mp : Msgs} {k : String} :
    k ∈ keySet mp ↔ (lookupA mp k).isSome = true := by
  rw [keySet, List.mem_toFinset, lookupA_isSome_iff]
  exact Iff.rfl

theorem keySet_card_of_nodup {mp : Msgs} (h : (keyList mp).Nodup) :
    (keySet mp).card = mp.length := by
  rw [keySet, List.toFinset_card_of_nodup h, keyList, List.length_map]

theorem checkKeys_ok_iff (lang firstLang : String) (mp l : Msgs) :
    checkKeys lang firstLang mp l = Except.ok () ↔ ∀ p ∈ l, (lookupA mp p.1).isSome = true := by
  induction l with
  | nil => simp [checkKeys]
  | cons p rest ih =>
    obtain ⟨k, v⟩ := p
    cases hc : lookupA mp k with
    | none =>
      have hL : checkKeys lang firstLang mp ((k, v) :: rest) =
          Except.error (CheckError.missingKey lang firstLang k) := by
        simp [checkKeys, hc]
      rw [hL]
      constructor
      · intro h
        simp at h
      · intro h
        have h2 := h (k, v) (by simp)
        rw [hc] at h2
        simp at h2
    | some w =>
      have hL : checkKeys lang firstLang mp ((k, v) :: rest) =
          checkKeys lang firstLang mp rest := by
        simp [checkKeys, hc]
      rw [hL, ih]
      constructor
      · intro h p hp
        rcases List.mem_cons.mp hp with h1 | h1
        · rw [h1]
          simp [hc]
        · exact h p h1
      · intro h p hp
        exact h p (List.mem_cons_of_mem _ hp)

theorem checkKeys_error {lang firstLang : String} {mp l : Msgs} {e : CheckError}
    (h : checkKeys lang firstLang mp l = Except.error e) :
    ∃ k, e = CheckError.missingKey lang firstLang k ∧ k ∈ keyList l ∧ lookupA mp k = none := by
  induction l with
  | nil => simp [checkKeys] at h
  | cons p rest ih =>
    obtain ⟨k, v⟩ := p
    cases hc : lookupA mp k with
    | none =>
      have hL : checkKeys lang firstLang mp ((k, v) :: rest) =
          Except.error (CheckError.missingKey lang firstLang k) := by
        simp [checkKeys, hc]
      rw [hL] at h
      injection h with h
      exact ⟨k, h.symm, by simp [keyList], hc⟩
    | some w =>
      have hL : checkKeys lang firstLang mp ((k, v) :: rest) =
          checkKeys lang firstLang mp rest := by
        simp [checkKeys, hc]
      rw [hL] at h
      obtain ⟨k', he, hmem, hnone⟩ := ih h
      refine ⟨k', he, ?_, hnone⟩
      simp [keyList] at hmem ⊢
      exact Or.inr hmem

theorem checkRest_ok_iff {firstLang : String} {firstMap : Msgs} {rest : Localizer} :
    checkRest firstLang firstMap rest = Except.ok () ↔
      ∀ p ∈ rest, p.2.length = firstMap.length ∧
        ∀ q ∈ firstMap, (lookupA p.2 q.1).isSome = true := by
  induction rest with
  | nil => simp [checkRest]
  | cons p rest ih =>
    obtain ⟨lang, mp⟩ := p
    by_cases hlen : mp.length = firstMap.length
    · cases hck : checkKeys lang firstLang mp firstMap with
      | error e =>
        have hL : checkRest firstLang firstMap ((lang, mp) :: rest) = Except.error e := by
          simp [checkRest, hlen, hck]
        rw [hL]
        constructor
        · intro h
          simp at h
        · intro h
          have h2 := (checkKeys_ok_iff lang firstLang mp firstMap).mpr (h (lang, mp) (by simp)).2
          rw [hck] at h2
          simp at h2
      | ok u =>
        obtain ⟨⟩ := u
        have hL : checkRest firstLang firstMap ((lang, mp) :: rest) =
            checkRest firstLang firstMap rest := by
          simp [checkRest, hlen, hck]
        rw [hL, ih]
        constructor
        · intro h p hp
          rcases List.mem_cons.mp hp with h1 | h1
          · rw [h1]
            exact ⟨hlen, (checkKeys_ok_iff lang firstLang mp firstMap).mp hck⟩
          · exact h p h1
        · intro h p hp
          exact h p (List.mem_cons_of_mem _ hp)
    · have hL : checkRest firstLang firstMap ((lang, mp) :: rest) =
          Except.error (CheckError.lengthMismatch lang mp.length firstLang firstMap.length) := by
        simp [checkRest, hlen]
      rw [hL]
      constructor
      · intro h
        simp at h
      · intro h
        exact absurd (h (lang, mp) (by simp)).1 hlen

theorem checkRest_error_cases {firstLang : String} {firstMap : Msgs} {rest : Localizer}
    {e : CheckError} (h : checkRest firstLang firstMap rest = Except.error e) :
    (∃ lang n, e = CheckError.lengthMismatch lang n firstLang firstMap.length ∧
      ∃ mp, (lang, mp) ∈ rest ∧ mp.length = n ∧ n ≠ firstMap.length) ∨
    (∃ lang k, e = CheckError.missingKey lang firstLang k ∧ k ∈ keyList firstMap ∧
      ∃ mp, (lang, mp) ∈ rest ∧ lookupA mp k = none) := by
  induction rest with
  | nil => simp [checkRest] at h
  | cons p rest ih =>
    obtain ⟨lang, mp⟩ := p
    by_cases hlen : mp.length = firstMap.length
    · cases hck : checkKeys lang firstLang mp firstMap with
      | error e' =>
        have hL : checkRest firstLang firstMap ((lang, mp) :: rest) = Except.error e' := by
          simp [checkRest, hlen, hck]
        rw [hL] at h
        injection h with h
        obtain ⟨k, he, hmem, hnone⟩ := checkKeys_error hck
        exact Or.inr ⟨lang, k, h ▸ he, hmem, mp, by simp, hnone⟩
      | ok u =>
        obtain ⟨⟩ := u
        have hL : checkRest firstLang firstMap ((lang, mp) :: rest) =
            checkRest firstLang firstMap rest := by
          simp [checkRest, hlen, hck]
        rw [hL] at h
        rcases ih h with ⟨lang', n, he, mp', hmem, hn⟩ | ⟨lang', k, he, hk, mp', hmem, hnone⟩
        · exact Or.inl ⟨lang', n, he, mp', by simp [hmem], hn⟩
        · exact Or.inr ⟨lang', k, he, hk, mp', by simp [hmem], hnone⟩
    · have hL : checkRest firstLang firstMap ((lang, mp) :: rest) =
          Except.error (CheckError.lengthMismatch lang mp.length firstLang firstMap.length) := by
        simp [checkRest, hlen]
      rw [hL] at h
      injection h with h
      exact Or.inl ⟨lang, mp.length, h.symm, mp, by simp, rfl, hlen⟩

theorem keySet_eq_of_checks {mp firstMap : Msgs}
    (hn1 : (keyList mp).Nodup) (hn2 : (keyList firstMap).Nodup)
    (hlen : mp.length = firstMap.length)
    (hsub : ∀ q ∈ firstMap, (lookupA mp q.1).isSome = true) :
    keySet mp = keySet firstMap := by
  have hss : keySet firstMap ⊆ keySet mp := by
    intro k hk
    rw [mem_keySet_iff, lookupA_isSome_iff] at hk
    rw [List.mem_map] at hk
    obtain ⟨q, hq, hq1⟩ := hk
    rw [mem_keySet_iff]
    exact hq1 ▸ hsub q hq
  have hcard : (keySet mp).card ≤ (keySet firstMap).card := by
    rw [keySet_card_of_nodup hn1, keySet_card_of_nodup hn2, hlen]
  exact (Finset.eq_of_subset_of_card_le hss hcard).symm

theorem checks_of_keySet_eq {mp firstMap : Msgs}
    (hn1 : (keyList mp).Nodup) (hn2 : (keyList firstMap).Nodup)
    (h : keySet mp = keySet firstMap) :
    mp.length = firstMap.length ∧ ∀ q ∈ firstMap, (lookupA mp q.1).isSome = true := by
  constructor
  · rw [← keySet_card_of_nodup hn1, ← keySet_card_of_nodup hn2, h]
  · intro q hq
    rw [← mem_keySet_iff, h, mem_keySet_iff, lookupA_isSome_iff]
    rw [List.mem_map]
    exact ⟨q, hq, rfl⟩

/-- Claim C1: a catalog passes `checkLanguageMap` exactly when every
non-reference locale's message-identifier set equals the reference
(first) locale's set, and a validation error names the offending locale,
the reference locale, and (for a missing id) the missing key, which is
genuinely a reference id absent from the offending locale. -/
theorem c1_validate_iff_equal_id_sets (firstLang : String) (firstMap : Msgs) (rest : Localizer)
    (hnodup : ∀ p ∈ ((firstLang, firstMap) :: rest : Localizer), (keyList p.2).Nodup) :
    (checkLanguageMap ((firstLang, firstMap) :: rest) = Except.ok () ↔
      ∀ p ∈ rest, keySet p.2 = keySet firstMap) ∧
    (∀ lang n fl m,
      checkLanguageMap ((firstLang, firstMap) :: rest) =
          Except.error (CheckError.lengthMismatch lang n fl m) →
        fl = firstLang ∧ m = firstMap.length ∧
          ∃ mp, (lang, mp) ∈ rest ∧ mp.length = n ∧ n ≠ m) ∧
    (∀ lang fl k,
      checkLanguageMap ((firstLang, firstMap) :: rest) =
          Except.error (CheckError.missingKey lang fl k) →
        fl = firstLang ∧ k ∈ keySet firstMap ∧
          ∃ mp, (lang, mp) ∈ rest ∧ lookupA mp k = none) := by
  have hfm : (keyList firstMap).Nodup := hnodup (firstLang, firstMap) (by simp)
  refine ⟨?_, ?_, ?_⟩
  · rw [show checkLanguageMap ((firstLang, firstMap) :: rest) = checkRest firstLang firstMap rest
        from rfl, checkRest_ok_iff]
    constructor
    · intro h p hp
      obtain ⟨hlen, hsub⟩ := h p hp
      exact keySet_eq_of_checks (hnodup p (by simp [hp])) hfm hlen hsub
    · intro h p hp
      exact checks_of_keySet_eq (hnodup p (by simp [hp])) hfm (h p hp)
  · intro lang n fl m h
    rw [show checkLanguageMap ((firstLang, firstMap) :: rest) = checkRest firstLang firstMap rest
        from rfl] at h
    rcases checkRest_error_cases h with ⟨lang', n', he, mp, hmem, hn, hne⟩ | ⟨l', k', he, hrest⟩
    · injection he with h1 h2 h3 h4
      subst h1
      subst h2
      subst h3
      subst h4
      exact ⟨rfl, rfl, mp, hmem, hn, hne⟩
    · exact absurd he (by simp)
  · intro lang fl k h
    rw [show checkLanguageMap ((firstLang, firstMap) :: rest) = checkRest firstLang firstMap rest
        from rfl] at h
    rcases checkRest_error_cases h with ⟨l', n', he, hrest⟩ | ⟨lang', k', he, hk, mp, hmem, hnone⟩
    · exact absurd he (by simp)
    · injection he with h1 h2 h3
      subst h1
      subst h2
      subst h3
      refine ⟨rfl, ?_, mp, hmem, hnone⟩
      rw [keySet, List.mem_toFinset]
      exact hk

/-- Witness for C1 at a concrete two-locale catalog. -/
theorem c1_validate_iff_equal_id_sets_witness :
    (∀ p ∈ (([("en-US", [("Greeting", (⟨"Hello", CompileState.uncompiled⟩ : Message))]),
        ("zh-CN", [("Greeting", ⟨"你好", CompileState.uncompiled⟩)])] : Localizer)),
      (keyList p.2).Nodup) ∧
    (checkLanguageMap [("en-US", [("Greeting", ⟨"Hello", CompileState.uncompiled⟩)]),
        ("zh-CN", [("Greeting", ⟨"你好", CompileState.uncompiled⟩)])] = Except.ok () ↔
      ∀ p ∈ ([("zh-CN", [("Greeting", ⟨"你好", CompileState.uncompiled⟩)])] : Localizer),
        keySet p.2 = keySet [("Greeting", ⟨"Hello", CompileState.uncompiled⟩)]) := by
  refine ⟨by decide, ?_⟩
  exact (c1_validate_iff_equal_id_sets "en-US"
    [("Greeting", ⟨"Hello", CompileState.uncompiled⟩)]
    [("zh-CN", [("Greeting", ⟨"你好", CompileState.uncompiled⟩)])] (by decide)).1

/-- Claim C10: a catalog with zero locales or a single locale passes
validation unconditionally, whatever that locale's message-id set is. -/
theorem c10_small_catalog_validates (loc : Localizer) (h : loc.length ≤ 1) :
    checkLanguageMap loc = Except.ok () := by
  match loc with
  | [] => rfl
  | [(lang, mp)] => rfl
  | (a :: b :: rest) => simp at h

/-- Witness for C10: the empty catalog and a one-locale catalog (with an
empty message table, as a validly named file defining no messages
produces). -/
theorem c10_small_catalog_validates_witness :
    (([] : Localizer).length ≤ 1 ∧ checkLanguageMap [] = Except.ok ()) ∧
    (([("zh-CN", [])] : Localizer).length ≤ 1 ∧
      checkLanguageMap [("zh-CN", [])] = Except.ok ()) :=
  ⟨⟨by decide, c10_small_catalog_validates [] (by decide)⟩,
   ⟨by decide, c10_small_catalog_validates [("zh-CN", [])] (by decide)⟩⟩


theorem lookupA_updateFirst_map {α : Type} (l : List (String × α)) (key : String) (f : α → α) :
    lookupA (updateFirst l key f) key = (lookupA l key).map f := by
  induction l with
  | nil => rfl
  | cons p rest ih =>
    obtain ⟨a, b⟩ := p
    by_cases hk : a = key
    · simp [lookupA, updateFirst, hk]
    · simp [lookupA, updateFirst, hk, ih]

theorem lookupMessage_setMessage_self (loc : Localizer) (lang mid : String) (msg : Message) :
    lookupMessage (setMessage loc lang mid msg) lang mid =
      (lookupMessage loc lang mid).map (fun _ => msg) := by
  cases h : lookupA loc lang with
  | none => simp [lookupMessage, setMessage, lookupA_updateFirst_map, h]
  | some mp => simp [lookupMessage, setMessage, lookupA_updateFirst_map, h]

theorem lookupMessage_setMessage_ne (loc : Localizer) (l m lang mid : String) (msg : Message)
    (h : ¬ (l = lang ∧ m = mid)) :
    lookupMessage (setMessage loc l m msg) lang mid = lookupMessage loc lang mid := by
  by_cases hl : l = lang
  · subst hl
    have hm : mid ≠ m := fun hc => h ⟨rfl, hc.symm⟩
    cases hc : lookupA loc l with
    | none => simp [lookupMessage, setMessage, lookupA_updateFirst_map, hc]
    | some mp =>
      simp [lookupMessage, setMessage, lookupA_updateFirst_map, hc,
        lookupA_updateFirst_ne _ hm]
  · have hl' : lang ≠ l := fun hc => hl hc.symm
    simp [lookupMessage, setMessage, lookupA_updateFirst_ne _ hl']

theorem translate_unknown_locale (loc : Localizer) (lang mid : String) (d : Data)
    (h : lookupA loc lang = none) :
    Translate loc lang mid d = ⟨Except.error (TranslateError.unknownLocale lang), loc, false⟩ := by
  simp [Translate, h]

theorem translate_unknown_message (loc : Localizer) (lang mid : String) (mp : Msgs) (d : Data)
    (h1 : lookupA loc lang = some mp) (h2 : lookupA mp mid = none) :
    Translate loc lang mid d =
      ⟨Except.error (TranslateError.unknownMessage lang mid), loc, false⟩ := by
  simp [Translate, h1, h2]

theorem translate_fast_path (loc : Localizer) (lang mid : String) (mp : Msgs) (msg : Message)
    (d : Data) (h1 : lookupA loc lang = some mp) (h2 : lookupA mp mid = some msg)
    (h3 : strContains msg.data leftDelim = false) :
    Translate loc lang mid d = ⟨Except.ok msg.data, loc, false⟩ := by
  simp [Translate, h1, h2, h3]

theorem translate_uncompiled_ok (loc : Localizer) (lang mid : String) (mp : Msgs)
    (msg : Message) (t : Template) (d : Data)
    (h1 : lookupA loc lang = some mp) (h2 : lookupA mp mid = some msg)
    (h3 : strContains msg.data leftDelim = true) (h4 : msg.tmpl = CompileState.uncompiled)
    (h5 : parseTemplate msg.data = Except.ok t) :
    Translate loc lang mid d =
      ⟨Except.ok (execute t d),
       setMessage loc lang mid ⟨msg.data, CompileState.compiledOk t⟩, true⟩ := by
  simp [Translate, h1, h2, h3, h4, h5]

theorem translate_uncompiled_err (loc : Localizer) (lang mid : String) (mp : Msgs)
    (msg : Message) (e : Unit) (d : Data)
    (h1 : lookupA loc lang = some mp) (h2 : lookupA mp mid = some msg)
    (h3 : strContains msg.data leftDelim = true) (h4 : msg.tmpl = CompileState.uncompiled)
    (h5 : parseTemplate msg.data = Except.error e) :
    Translate loc lang mid d =
      ⟨Except.error (TranslateError.parseError lang mid msg.data),
       setMessage loc lang mid ⟨msg.data, CompileState.failed⟩, true⟩ := by
  simp [Translate, h1, h2, h3, h4, h5]

theorem translate_compiled (loc : Localizer) (lang mid : String) (mp : Msgs) (msg : Message)
    (t : Template) (d : Data)
    (h1 : lookupA loc lang = some mp) (h2 : lookupA mp mid = some msg)
    (h3 : strContains msg.data leftDelim = true) (h4 : msg.tmpl = CompileState.compiledOk t) :
    Translate loc lang mid d = ⟨Except.ok (execute t d), loc, false⟩ := by
  simp [Translate, h1, h2, h3, h4]

theorem translate_failed (loc : Localizer) (lang mid : String) (mp : Msgs) (msg : Message)
    (d : Data)
    (h1 : lookupA loc lang = some mp) (h2 : lookupA mp mid = some msg)
    (h3 : strContains msg.data leftDelim = true) (h4 : msg.tmpl = CompileState.failed) :
    Translate loc lang mid d =
      ⟨Except.error (TranslateError.parseError lang mid msg.data), loc, false⟩ := by
  simp [Translate, h1, h2, h3, h4]


/-- Claim C4: when the raw message contains no opening delimiter, any
`Translate` call on it (whatever the data, an empty/nil map included)
returns the raw string verbatim, leaves the catalog untouched, and runs
no template parsing. -/
theorem c4_fast_path_verbatim (loc : Localizer) (lang mid : String) (d : Data)
    (mp : Msgs) (msg : Message)
    (h1 : lookupA loc lang = some mp) (h2 : lookupA mp mid = some msg)
    (h3 : strContains msg.data leftDelim = false) :
    (Translate loc lang mid d).res = Except.ok msg.data ∧
    (Translate loc lang mid d).loc = loc ∧
    (Translate loc lang mid d).parsed = false := by
  rw [translate_fast_path loc lang mid mp msg d h1 h2 h3]
  exact ⟨rfl, rfl, rfl⟩

/-- Witness for C4 at a concrete delimiter-free message and nonempty
data. -/
theorem c4_fast_path_verbatim_witness :
    lookupA [("zh-CN", [("Plain", (⟨"订单不存在", CompileState.uncompiled⟩ : Message))])]
        "zh-CN" = some [("Plain", ⟨"订单不存在", CompileState.uncompiled⟩)] ∧
    lookupA [("Plain", (⟨"订单不存在", CompileState.uncompiled⟩ : Message))] "Plain" =
      some ⟨"订单不存在", CompileState.uncompiled⟩ ∧
    strContains "订单不存在" leftDelim = false ∧
    (Translate [("zh-CN", [("Plain", ⟨"订单不存在", CompileState.uncompiled⟩)])]
        "zh-CN" "Plain" [("Name", "Ana")]).res = Except.ok "订单不存在" := by
  refine ⟨by decide, by decide, by decide, ?_⟩
  exact (c4_fast_path_verbatim
    [("zh-CN", [("Plain", ⟨"订单不存在", CompileState.uncompiled⟩)])]
    "zh-CN" "Plain" [("Name", "Ana")]
    [("Plain", ⟨"订单不存在", CompileState.uncompiled⟩)]
    ⟨"订单不存在", CompileState.uncompiled⟩
    (by decide) (by decide) (by decide)).1

/-- Claim C7: `Translate` fails with the unknown-locale error when the
locale is absent, fails with the unknown-message error when the id is
absent for that locale, and returns the rendered string when both
lookups succeed and the message either needs no compilation (fast path
or already compiled) or compiles successfully. -/
theorem c7_translate_lookup_contract :
    (∀ (loc : Localizer) (lang mid : String) (d : Data), lookupA loc lang = none →
      (Translate loc lang mid d).res = Except.error (TranslateError.unknownLocale lang)) ∧
    (∀ (loc : Localizer) (lang mid : String) (d : Data) (mp : Msgs),
      lookupA loc lang = some mp → lookupA mp mid = none →
      (Translate loc lang mid d).res = Except.error (TranslateError.unknownMessage lang mid)) ∧
    (∀ (loc : Localizer) (lang mid : String) (d : Data) (mp : Msgs) (msg : Message),
      lookupA loc lang = some mp → lookupA mp mid = some msg →
      strContains msg.data leftDelim = false →
      (Translate loc lang mid d).res = Except.ok msg.data) ∧
    (∀ (loc : Localizer) (lang mid : String) (d : Data) (mp : Msgs) (msg : Message)
      (t : Template),
      lookupA loc lang = some mp → lookupA mp mid = some msg →
      strContains msg.data leftDelim = true → msg.tmpl = CompileState.uncompiled →
      parseTemplate msg.data = Except.ok t →
      (Translate loc lang mid d).res = Except.ok (execute t d)) ∧
    (∀ (loc : Localizer) (lang mid : String) (d : Data) (mp : Msgs) (msg : Message)
      (t : Template),
      lookupA loc lang = some mp → lookupA mp mid = some msg →
      strContains msg.data leftDelim = true → msg.tmpl = CompileState.compiledOk t →
      (Translate loc lang mid d).res = Except.ok (execute t d)) := by
  refine ⟨?_, ?_, ?_, ?_, ?_⟩
  · intro loc lang mid d h
    rw [translate_unknown_locale loc lang mid d h]
  · intro loc lang mid d mp h1 h2
    rw [translate_unknown_message loc lang mid mp d h1 h2]
  · intro loc lang mid d mp msg h1 h2 h3
    rw [translate_fast_path loc lang mid mp msg d h1 h2 h3]
  · intro loc lang mid d mp msg t h1 h2 h3 h4 h5
    rw [translate_uncompiled_ok loc lang mid mp msg t d h1 h2 h3 h4 h5]
  · intro loc lang mid d mp msg t h1 h2 h3 h4
    rw [translate_compiled loc lang mid mp msg t d h1 h2 h3 h4]

/-- Witness for C7: the unknown-locale error, the unknown-message error,
and a successful render (the spec's own example: translating "Greeting"
for "en-US" with data Name = Ana gives "Hello, Ana") at concrete
inputs. -/
theorem c7_translate_lookup_contract_witness :
    (lookupA ([] : Localizer) "fr-FR" = none ∧
      (Translate [] "fr-FR" "Greeting" []).res =
        Except.error (TranslateError.unknownLocale "fr-FR")) ∧
    (lookupA [("en-US", ([] : Msgs))] "en-US" = some [] ∧
      lookupA ([] : Msgs) "Greeting" = none ∧
      (Translate [("en-US", [])] "en-US" "Greeting" []).res =
        Except.error (TranslateError.unknownMessage "en-US" "Greeting")) ∧
    ((Translate [("en-US",
        [("Greeting", ⟨"Hello, \x7b\x7b.Name\x7d\x7d", CompileState.uncompiled⟩)])]
        "en-US" "Greeting" [("Name", "Ana")]).res = Except.ok "Hello, Ana") := by
  refine ⟨⟨by decide, ?_⟩, ⟨by decide, by decide, ?_⟩, ?_⟩
  · exact c7_translate_lookup_contract.1 [] "fr-FR" "Greeting" [] (by decide)
  · exact c7_translate_lookup_contract.2.1 [("en-US", [])] "en-US" "Greeting" [] []
      (by decide) (by decide)
  · have h := c7_translate_lookup_contract.2.2.2.1
      [("en-US", [("Greeting", ⟨"Hello, \x7b\x7b.Name\x7d\x7d", CompileState.uncompiled⟩)])]
      "en-US" "Greeting" [("Name", "Ana")]
      [("Greeting", ⟨"Hello, \x7b\x7b.Name\x7d\x7d", CompileState.uncompiled⟩)]
      ⟨"Hello, \x7b\x7b.Name\x7d\x7d", CompileState.uncompiled⟩
      [Seg.lit "Hello, ", Seg.field "Name"]
      (by decide) (by decide) (by decide) (by decide) (by decide)
    rw [h]
    decide

/-- Claim C2 fails on the code: Go `text/template` renders a missing map
key as the literal string "<no value>" under its default `missingkey`
option, not as empty output; rendering `"Hi \x7b\x7b.Missing\x7d\x7d"`
with an empty data map yields `"Hi <no value>"`, not `"Hi "`. -/
theorem c2_counterexample_no_value :
    (Translate [("en-US", [("Greeting", ⟨"Hi \x7b\x7b.Missing\x7d\x7d",
        CompileState.uncompiled⟩)])] "en-US" "Greeting" []).res = Except.ok "Hi <no value>" ∧
    (Translate [("en-US", [("Greeting", ⟨"Hi \x7b\x7b.Missing\x7d\x7d",
        CompileState.uncompiled⟩)])] "en-US" "Greeting" []).res ≠ Except.ok "Hi " :=
  ⟨by decide, by decide⟩

/-- Claim C2 (amended): a placeholder whose key is absent from the
supplied data renders as the engine's default "no value" output — the
literal string "<no value>" — rather than failing; in particular
`"Hi \x7b\x7b.Missing\x7d\x7d"` rendered with any data lacking
`"Missing"` (the empty map included) returns `"Hi <no value>"`. -/
theorem c2_amended_missing_key_renders_no_value :
    (∀ (d : Data) (f : String), lookupA d f = none →
      execSeg d (Seg.field f) = "<no value>") ∧
    (∀ d : Data, lookupA d "Missing" = none →
      (Translate [("en-US", [("Greeting", ⟨"Hi \x7b\x7b.Missing\x7d\x7d",
          CompileState.uncompiled⟩)])] "en-US" "Greeting" d).res =
        Except.ok "Hi <no value>") := by
  constructor
  · intro d f h
    simp [execSeg, h]
  · intro d h
    have ht := translate_uncompiled_ok
      [("en-US", [("Greeting", ⟨"Hi \x7b\x7b.Missing\x7d\x7d", CompileState.uncompiled⟩)])]
      "en-US" "Greeting"
      [("Greeting", ⟨"Hi \x7b\x7b.Missing\x7d\x7d", CompileState.uncompiled⟩)]
      ⟨"Hi \x7b\x7b.Missing\x7d\x7d", CompileState.uncompiled⟩
      [Seg.lit "Hi ", Seg.field "Missing"] d
      (by decide) (by decide) (by decide) (by decide) (by decide)
    rw [ht]
    simp only [execute, execSeg, h]
    decide

/-- Witness for C2's amended theorem at the empty data map. -/
theorem c2_amended_missing_key_renders_no_value_witness :
    lookupA ([] : Data) "Missing" = none ∧
    (Translate [("en-US", [("Greeting", ⟨"Hi \x7b\x7b.Missing\x7d\x7d",
        CompileState.uncompiled⟩)])] "en-US" "Greeting" []).res = Except.ok "Hi <no value>" :=
  ⟨by decide, c2_amended_missing_key_renders_no_value.2 [] (by decide)⟩

/-- Claim C8: `Translate` is deterministic and idempotent — repeating a
call with the same locale, message id and data right after a first call
returns the same result and leaves the catalog in the same state, so
any number of callers with identical input observe identical output. -/
theorem c8_translate_idempotent (loc : Localizer) (lang mid : String) (d : Data) :
    (Translate (Translate loc lang mid d).loc lang mid d).res =
      (Translate loc lang mid d).res ∧
    (Translate (Translate loc lang mid d).loc lang mid d).loc =
      (Translate loc lang mid d).loc := by
  cases h1 : lookupA loc lang with
  | none => simp [translate_unknown_locale loc lang mid d h1]
  | some mp =>
    cases h2 : lookupA mp mid with
    | none => simp [translate_unknown_message loc lang mid mp d h1 h2]
    | some msg =>
      cases h3 : strContains msg.data leftDelim with
      | false => simp [translate_fast_path loc lang mid mp msg d h1 h2 h3]
      | true =>
        cases h4 : msg.tmpl with
        | compiledOk t => simp [translate_compiled loc lang mid mp msg t d h1 h2 h3 h4]
        | failed => simp [translate_failed loc lang mid mp msg d h1 h2 h3 h4]
        | uncompiled =>
          cases h5 : parseTemplate msg.data with
          | ok t =>
            have hl1 : lookupA (setMessage loc lang mid
                ⟨msg.data, CompileState.compiledOk t⟩) lang =
                some (updateFirst mp mid
                  (fun _ => ⟨msg.data, CompileState.compiledOk t⟩)) := by
              rw [setMessage, lookupA_updateFirst_map, h1]
              rfl
            have hl2 : lookupA (updateFirst mp mid
                (fun _ => (⟨msg.data, CompileState.compiledOk t⟩ : Message))) mid =
                some ⟨msg.data, CompileState.compiledOk t⟩ := by
              rw [lookupA_updateFirst_map, h2]
              rfl
            have ht2 := translate_compiled
              (setMessage loc lang mid ⟨msg.data, CompileState.compiledOk t⟩) lang mid
              (updateFirst mp mid (fun _ => ⟨msg.data, CompileState.compiledOk t⟩))
              ⟨msg.data, CompileState.compiledOk t⟩ t d hl1 hl2 h3 rfl
            simp [translate_uncompiled_ok loc lang mid mp msg t d h1 h2 h3 h4 h5, ht2]
          | error e =>
            have hl1 : lookupA (setMessage loc lang mid
                ⟨msg.data, CompileState.failed⟩) lang =
                some (updateFirst mp mid
                  (fun _ => ⟨msg.data, CompileState.failed⟩)) := by
              rw [setMessage, lookupA_updateFirst_map, h1]
              rfl
            have hl2 : lookupA (updateFirst mp mid
                (fun _ => (⟨msg.data, CompileState.failed⟩ : Message))) mid =
                some ⟨msg.data, CompileState.failed⟩ := by
              rw [lookupA_updateFirst_map, h2]
              rfl
            have ht2 := translate_failed
              (setMessage loc lang mid ⟨msg.data, CompileState.failed⟩) lang mid
              (updateFirst mp mid (fun _ => ⟨msg.data, CompileState.failed⟩))
              ⟨msg.data, CompileState.failed⟩ d hl1 hl2 h3 rfl
            simp [translate_uncompiled_err loc lang mid mp msg e d h1 h2 h3 h4 h5, ht2]

theorem lookupMessage_eq_some {loc : Localizer} {lang mid : String} {msg : Message} :
    lookupMessage loc lang mid = some msg ↔
      ∃ mp, lookupA loc lang = some mp ∧ lookupA mp mid = some msg := by
  cases h : lookupA loc lang with
  | none => simp [lookupMessage, h]
  | some mp => simp [lookupMessage, h]

/-- Exhaustive description of one `Translate` call: either it leaves the
catalog untouched and runs no parsing, or it is the one-time compiling
call, succeeding or failing. -/
theorem translate_loc_cases (loc : Localizer) (l m : String) (d : Data) :
    ((Translate loc l m d).loc = loc ∧ (Translate loc l m d).parsed = false) ∨
    (∃ mp msg t, lookupA loc l = some mp ∧ lookupA mp m = some msg ∧
      strContains msg.data leftDelim = true ∧ msg.tmpl = CompileState.uncompiled ∧
      parseTemplate msg.data = Except.ok t ∧
      Translate loc l m d = ⟨Except.ok (execute t d),
        setMessage loc l m ⟨msg.data, CompileState.compiledOk t⟩, true⟩) ∨
    (∃ mp msg, lookupA loc l = some mp ∧ lookupA mp m = some msg ∧
      strContains msg.data leftDelim = true ∧ msg.tmpl = CompileState.uncompiled ∧
      parseTemplate msg.data = Except.error () ∧
      Translate loc l m d = ⟨Except.error (TranslateError.parseError l m msg.data),
        setMessage loc l m ⟨msg.data, CompileState.failed⟩, true⟩) := by
  cases h1 : lookupA loc l with
  | none =>
    rw [translate_unknown_locale loc l m d h1]
    exact Or.inl ⟨rfl, rfl⟩
  | some mp =>
    cases h2 : lookupA mp m with
    | none =>
      rw [translate_unknown_message loc l m mp d h1 h2]
      exact Or.inl ⟨rfl, rfl⟩
    | some msg =>
      cases h3 : strContains msg.data leftDelim with
      | false =>
        rw [translate_fast_path loc l m mp msg d h1 h2 h3]
        exact Or.inl ⟨rfl, rfl⟩
      | true =>
        cases h4 : msg.tmpl with
        | compiledOk t =>
          rw [translate_compiled loc l m mp msg t d h1 h2 h3 h4]
          exact Or.inl ⟨rfl, rfl⟩
        | failed =>
          rw [translate_failed loc l m mp msg d h1 h2 h3 h4]
          exact Or.inl ⟨rfl, rfl⟩
        | uncompiled =>
          cases h5 : parseTemplate msg.data with
          | ok t =>
            exact Or.inr (Or.inl ⟨mp, msg, t, rfl, h2, h3, h4, h5,
              translate_uncompiled_ok loc l m mp msg t d h1 h2 h3 h4 h5⟩)
          | error e =>
            obtain ⟨⟩ := e
            exact Or.inr (Or.inr ⟨mp, msg, rfl, h2, h3, h4, h5,
              translate_uncompiled_err loc l m mp msg () d h1 h2 h3 h4 h5⟩)

theorem notCompilable_of_terminal {loc : Localizer} {lang mid : String} {msg : Message}
    (h : lookupMessage loc lang mid = some msg) (ht : msg.tmpl ≠ CompileState.uncompiled) :
    notCompilable loc lang mid := by
  rw [notCompilable, h]
  exact Or.inl ht

theorem translate_parsed_false_of_notCompilable {loc : Localizer} {lang mid : String}
    (d : Data) (h : notCompilable loc lang mid) :
    (Translate loc lang mid d).parsed = false := by
  rcases translate_loc_cases loc lang mid d with ⟨_, hp⟩ |
      ⟨mp, msg, t, h1, h2, h3, h4, _, _⟩ | ⟨mp, msg, h1, h2, h3, h4, _, _⟩
  · exact hp
  · rw [notCompilable, lookupMessage_eq_some.mpr ⟨mp, h1, h2⟩] at h
    rcases h with h | h
    · exact absurd h4 h
    · rw [h3] at h
      exact absurd h (by simp)
  · rw [notCompilable, lookupMessage_eq_some.mpr ⟨mp, h1, h2⟩] at h
    rcases h with h | h
    · exact absurd h4 h
    · rw [h3] at h
      exact absurd h (by simp)

theorem notCompilable_preserved {loc : Localizer} (lang mid l m : String) (d : Data)
    (h : notCompilable loc lang mid) :
    notCompilable (Translate loc l m d).loc lang mid := by
  rcases translate_loc_cases loc l m d with ⟨hl, _⟩ |
      ⟨mp, msg, t, h1, h2, h3, h4, h5, ht⟩ | ⟨mp, msg, h1, h2, h3, h4, h5, ht⟩
  · rw [hl]
    exact h
  · rw [ht]
    by_cases hlm : l = lang ∧ m = mid
    · obtain ⟨rfl, rfl⟩ := hlm
      rw [notCompilable, lookupMessage_setMessage_self,
        lookupMessage_eq_some.mpr ⟨mp, h1, h2⟩]
      exact Or.inl (by simp)
    · rw [notCompilable, lookupMessage_setMessage_ne loc l m lang mid _ hlm]
      exact h
  · rw [ht]
    by_cases hlm : l = lang ∧ m = mid
    · obtain ⟨rfl, rfl⟩ := hlm
      rw [notCompilable, lookupMessage_setMessage_self,
        lookupMessage_eq_some.mpr ⟨mp, h1, h2⟩]
      exact Or.inl (by simp)
    · rw [notCompilable, lookupMessage_setMessage_ne loc l m lang mid _ hlm]
      exact h

theorem notCompilable_of_parsed {loc : Localizer} (l m : String) (d : Data)
    (h : (Translate loc l m d).parsed = true) :
    notCompilable (Translate loc l m d).loc l m := by
  rcases translate_loc_cases loc l m d with ⟨_, hp⟩ |
      ⟨mp, msg, t, h1, h2, h3, h4, h5, ht⟩ | ⟨mp, msg, h1, h2, h3, h4, h5, ht⟩
  · rw [hp] at h
    exact absurd h (by simp)
  · rw [ht]
    rw [notCompilable, lookupMessage_setMessage_self,
      lookupMessage_eq_some.mpr ⟨mp, h1, h2⟩]
    exact Or.inl (by simp)
  · rw [ht]
    rw [notCompilable, lookupMessage_setMessage_self,
      lookupMessage_eq_some.mpr ⟨mp, h1, h2⟩]
    exact Or.inl (by simp)

theorem countCompiles_zero (lang mid : String) (calls : List (String × String × Data))
    (loc : Localizer) (h : notCompilable loc lang mid) :
    countCompiles lang mid loc calls = 0 := by
  induction calls generalizing loc with
  | nil => rfl
  | cons c rest ih =>
    obtain ⟨l, m, d⟩ := c
    rw [countCompiles]
    have hrest := ih (Translate loc l m d).loc (notCompilable_preserved lang mid l m d h)
    by_cases hlm : l = lang ∧ m = mid
    · obtain ⟨rfl, rfl⟩ := hlm
      rw [translate_parsed_false_of_notCompilable d h]
      simpa using hrest
    · have hcond : ¬ (l = lang ∧ m = mid ∧ (Translate loc l m d).parsed = true) := by
        intro hc
        exact hlm ⟨hc.1, hc.2.1⟩
      rw [if_neg hcond]
      simpa using hrest

/-- Claim C3: the compiled-template slot follows
`Uncompiled → \x7bCompiled, CompileFailed\x7d`: a message out of
`uncompiled` is terminal (the call changes nothing and never re-parses,
and on `failed` it fails again with the same deterministic error); the
transition out of `uncompiled` is triggered exactly by a slow-path
render, landing in `compiledOk` or `failed` according to the one parse;
and over any sequence of `Translate` calls the parser runs at most once
per message. -/
theorem c3_compile_once_lifecycle :
    (∀ (loc : Localizer) (lang mid : String) (d : Data) (msg : Message),
      lookupMessage loc lang mid = some msg → msg.tmpl ≠ CompileState.uncompiled →
      (Translate loc lang mid d).loc = loc ∧ (Translate loc lang mid d).parsed = false) ∧
    (∀ (loc : Localizer) (lang mid : String) (d : Data) (msg : Message),
      lookupMessage loc lang mid = some msg → msg.tmpl = CompileState.failed →
      strContains msg.data leftDelim = true →
      (Translate loc lang mid d).res =
        Except.error (TranslateError.parseError lang mid msg.data)) ∧
    (∀ (loc : Localizer) (lang mid : String) (d : Data) (msg : Message),
      lookupMessage loc lang mid = some msg → msg.tmpl = CompileState.uncompiled →
      strContains msg.data leftDelim = true →
      (Translate loc lang mid d).parsed = true ∧
      (∀ t, parseTemplate msg.data = Except.ok t →
        lookupMessage (Translate loc lang mid d).loc lang mid =
          some ⟨msg.data, CompileState.compiledOk t⟩) ∧
      (∀ e, parseTemplate msg.data = Except.error e →
        lookupMessage (Translate loc lang mid d).loc lang mid =
          some ⟨msg.data, CompileState.failed⟩ ∧
        (Translate loc lang mid d).res =
          Except.error (TranslateError.parseError lang mid msg.data))) ∧
    (∀ (lang mid : String) (loc : Localizer) (calls : List (String × String × Data)),
      countCompiles lang mid loc calls ≤ 1) := by
  refine ⟨?_, ?_, ?_, ?_⟩
  · intro loc lang mid d msg hm hne
    obtain ⟨mp, h1, h2⟩ := lookupMessage_eq_some.mp hm
    cases h3 : strContains msg.data leftDelim with
    | false =>
      rw [translate_fast_path loc lang mid mp msg d h1 h2 h3]
      exact ⟨rfl, rfl⟩
    | true =>
      cases h4 : msg.tmpl with
      | uncompiled => exact absurd h4 hne
      | compiledOk t =>
        rw [translate_compiled loc lang mid mp msg t d h1 h2 h3 h4]
        exact ⟨rfl, rfl⟩
      | failed =>
        rw [translate_failed loc lang mid mp msg d h1 h2 h3 h4]
        exact ⟨rfl, rfl⟩
  · intro loc lang mid d msg hm h4 h3
    obtain ⟨mp, h1, h2⟩ := lookupMessage_eq_some.mp hm
    rw [translate_failed loc lang mid mp msg d h1 h2 h3 h4]
  · intro loc lang mid d msg hm h4 h3
    obtain ⟨mp, h1, h2⟩ := lookupMessage_eq_some.mp hm
    refine ⟨?_, ?_, ?_⟩
    · cases h5 : parseTemplate msg.data with
      | ok t => rw [translate_uncompiled_ok loc lang mid mp msg t d h1 h2 h3 h4 h5]
      | error e => rw [translate_uncompiled_err loc lang mid mp msg e d h1 h2 h3 h4 h5]
    · intro t h5
      rw [translate_uncompiled_ok loc lang mid mp msg t d h1 h2 h3 h4 h5]
      have := lookupMessage_setMessage_self loc lang mid
        ⟨msg.data, CompileState.compiledOk t⟩
      rw [hm] at this
      exact this
    · intro e h5
      rw [translate_uncompiled_err loc lang mid mp msg e d h1 h2 h3 h4 h5]
      have := lookupMessage_setMessage_self loc lang mid ⟨msg.data, CompileState.failed⟩
      rw [hm] at this
      exact ⟨this, rfl⟩
  · intro lang mid loc calls
    induction calls generalizing loc with
    | nil => exact Nat.zero_le 1
    | cons c rest ih =>
      obtain ⟨l, m, d⟩ := c
      rw [countCompiles]
      by_cases hc : l = lang ∧ m = mid ∧ (Translate loc l m d).parsed = true
      · rw [if_pos hc]
        obtain ⟨rfl, rfl, hp⟩ := hc
        have h0 := countCompiles_zero l m rest (Translate loc l m d).loc
          (notCompilable_of_parsed l m d hp)
        rw [h0]
      · rw [if_neg hc]
        simpa using ih (Translate loc l m d).loc

/-- Witness for C3 at concrete catalogs: a compiled message is
terminal, a failed message fails again, an uncompiled slow-path message
parses once and lands in `compiledOk` (or in `failed` on a bad
template), and a two-call sequence compiles at most once. -/
theorem c3_compile_once_lifecycle_witness :
    (lookupMessage [("en", [("g", ⟨"\x7b\x7b.A\x7d\x7d",
          CompileState.compiledOk [Seg.field "A"]⟩)])] "en" "g" =
        some ⟨"\x7b\x7b.A\x7d\x7d", CompileState.compiledOk [Seg.field "A"]⟩ ∧
      (Translate [("en", [("g", ⟨"\x7b\x7b.A\x7d\x7d",
          CompileState.compiledOk [Seg.field "A"]⟩)])] "en" "g" []).loc =
        [("en", [("g", ⟨"\x7b\x7b.A\x7d\x7d", CompileState.compiledOk [Seg.field "A"]⟩)])]) ∧
    (lookupMessage [("en", [("b", ⟨"\x7b\x7b", CompileState.failed⟩)])] "en" "b" =
        some ⟨"\x7b\x7b", CompileState.failed⟩ ∧
      (Translate [("en", [("b", ⟨"\x7b\x7b", CompileState.failed⟩)])] "en" "b" []).res =
        Except.error (TranslateError.parseError "en" "b" "\x7b\x7b")) ∧
    ((Translate [("en", [("g", ⟨"\x7b\x7b.A\x7d\x7d",
          CompileState.uncompiled⟩)])] "en" "g" []).parsed = true ∧
      lookupMessage (Translate [("en", [("g", ⟨"\x7b\x7b.A\x7d\x7d",
          CompileState.uncompiled⟩)])] "en" "g" []).loc "en" "g" =
        some ⟨"\x7b\x7b.A\x7d\x7d", CompileState.compiledOk [Seg.field "A"]⟩) ∧
    (lookupMessage (Translate [("en", [("b", ⟨"\x7b\x7b",
          CompileState.uncompiled⟩)])] "en" "b" []).loc "en" "b" =
        some ⟨"\x7b\x7b", CompileState.failed⟩) ∧
    (countCompiles "en" "g" [("en", [("g", ⟨"\x7b\x7b.A\x7d\x7d",
        CompileState.uncompiled⟩)])] [("en", "g", []), ("en", "g", [])] ≤ 1) := by
  refine ⟨⟨by decide, ?_⟩, ⟨by decide, ?_⟩, ⟨?_, ?_⟩, ?_, ?_⟩
  · exact (c3_compile_once_lifecycle.1 [("en", [("g", ⟨"\x7b\x7b.A\x7d\x7d",
      CompileState.compiledOk [Seg.field "A"]⟩)])] "en" "g" []
      ⟨"\x7b\x7b.A\x7d\x7d", CompileState.compiledOk [Seg.field "A"]⟩
      (by decide) (by decide)).1
  · exact c3_compile_once_lifecycle.2.1 [("en", [("b", ⟨"\x7b\x7b",
      CompileState.failed⟩)])] "en" "b" [] ⟨"\x7b\x7b", CompileState.failed⟩
      (by decide) (by decide) (by decide)
  · exact (c3_compile_once_lifecycle.2.2.1 [("en", [("g", ⟨"\x7b\x7b.A\x7d\x7d",
      CompileState.uncompiled⟩)])] "en" "g" []
      ⟨"\x7b\x7b.A\x7d\x7d", CompileState.uncompiled⟩
      (by decide) (by decide) (by decide)).1
  · exact (c3_compile_once_lifecycle.2.2.1 [("en", [("g", ⟨"\x7b\x7b.A\x7d\x7d",
      CompileState.uncompiled⟩)])] "en" "g" []
      ⟨"\x7b\x7b.A\x7d\x7d", CompileState.uncompiled⟩
      (by decide) (by decide) (by decide)).2.1 [Seg.field "A"] (by decide)
  · exact ((c3_compile_once_lifecycle.2.2.1 [("en", [("b", ⟨"\x7b\x7b",
      CompileState.uncompiled⟩)])] "en" "b" []
      ⟨"\x7b\x7b", CompileState.uncompiled⟩
      (by decide) (by decide) (by decide)).2.2 () (by decide)).1
  · exact c3_compile_once_lifecycle.2.2.2 "en" "g" [("en", [("g", ⟨"\x7b\x7b.A\x7d\x7d",
      CompileState.uncompiled⟩)])] [("en", "g", []), ("en", "g", [])]

theorem msgEvol_refl (m : Message) : msgEvol m m :=
  ⟨rfl, Or.inr rfl⟩

theorem catalogEvol_refl (loc : Localizer) : catalogEvol loc loc := by
  refine List.forall₂_same.mpr ?_
  intro p _
  refine ⟨rfl, List.forall₂_same.mpr ?_⟩
  intro q _
  exact ⟨rfl, msgEvol_refl q.2⟩

theorem catalogEvol_setMessage {loc : Localizer} {lang mid : String} {mp : Msgs}
    {msg : Message} (newMsg : Message)
    (h1 : lookupA loc lang = some mp) (h2 : lookupA mp mid = some msg)
    (he : msgEvol msg newMsg) :
    catalogEvol loc (setMessage loc lang mid newMsg) := by
  rw [catalogEvol, setMessage]
  refine forall₂_updateFirst _ ?_ loc lang _ ?_
  · intro a
    refine List.forall₂_same.mpr ?_
    intro q _
    exact ⟨rfl, msgEvol_refl q.2⟩
  · intro v hv
    rw [h1] at hv
    injection hv with hv
    subst hv
    refine forall₂_updateFirst _ ?_ mp mid _ ?_
    · intro a
      exact msgEvol_refl a
    · intro w hw
      rw [h2] at hw
      injection hw with hw
      subst hw
      exact he

theorem msgsEvol_nonempty {mpa mpb : Msgs}
    (h : List.Forall₂ (fun a b => b.1 = a.1 ∧ msgEvol a.2 b.2) mpa mpb)
    (hne : ∀ q ∈ mpa, q.2.data ≠ "") : ∀ q ∈ mpb, q.2.data ≠ "" := by
  induction h with
  | nil => intro q hq; cases hq
  | cons hr ht ih =>
    intro q hq
    rcases List.mem_cons.mp hq with h1 | h1
    · subst h1
      rw [hr.2.1]
      exact hne _ (by simp)
    · exact ih (fun q hq => hne q (List.mem_cons_of_mem _ hq)) q h1

theorem catalogEvol_nonempty {loc loc' : Localizer} (h : catalogEvol loc loc')
    (hne : ∀ p ∈ loc, ∀ q ∈ p.2, q.2.data ≠ "") :
    ∀ p ∈ loc', ∀ q ∈ p.2, q.2.data ≠ "" := by
  induction h with
  | nil => intro p hp; cases hp
  | cons hr ht ih =>
    intro p hp
    rcases List.mem_cons.mp hp with h1 | h1
    · subst h1
      exact msgsEvol_nonempty hr.2 (hne _ (by simp))
    · exact ih (fun p hp => hne p (List.mem_cons_of_mem _ hp)) p h1

/-- Claim C9: a `Translate` call preserves the catalog's structure —
the same locales in the same positions with the same message ids, every
raw value unchanged (so non-emptiness of every raw value is preserved),
and the only change permitted to a compiled-template slot is leaving
`uncompiled`, never a reversion. -/
theorem c9_structure_readonly_and_monotonic :
    (∀ (loc : Localizer) (lang mid : String) (d : Data),
      catalogEvol loc (Translate loc lang mid d).loc) ∧
    (∀ (loc : Localizer) (lang mid : String) (d : Data),
      (∀ p ∈ loc, ∀ q ∈ p.2, q.2.data ≠ "") →
      ∀ p ∈ (Translate loc lang mid d).loc, ∀ q ∈ p.2, q.2.data ≠ "") := by
  have hmain : ∀ (loc : Localizer) (lang mid : String) (d : Data),
      catalogEvol loc (Translate loc lang mid d).loc := by
    intro loc lang mid d
    rcases translate_loc_cases loc lang mid d with ⟨hl, _⟩ |
        ⟨mp, msg, t, h1, h2, h3, h4, h5, ht⟩ | ⟨mp, msg, h1, h2, h3, h4, h5, ht⟩
    · rw [hl]
      exact catalogEvol_refl loc
    · rw [ht]
      exact catalogEvol_setMessage _ h1 h2 ⟨rfl, Or.inl h4⟩
    · rw [ht]
      exact catalogEvol_setMessage _ h1 h2 ⟨rfl, Or.inl h4⟩
  exact ⟨hmain, fun loc lang mid d hne =>
    catalogEvol_nonempty (hmain loc lang mid d) hne⟩

/-- Witness for C9's non-emptiness conjunct at a concrete catalog whose
first call compiles a template. -/
theorem c9_structure_readonly_and_monotonic_witness :
    (∀ p ∈ ([("en", [("g", (⟨"\x7b\x7b.A\x7d\x7d", CompileState.uncompiled⟩ : Message))])] :
        Localizer), ∀ q ∈ p.2, q.2.data ≠ "") ∧
    (∀ p ∈ (Translate [("en", [("g", ⟨"\x7b\x7b.A\x7d\x7d", CompileState.uncompiled⟩)])]
        "en" "g" []).loc, ∀ q ∈ p.2, q.2.data ≠ "") :=
  ⟨by decide, c9_structure_readonly_and_monotonic.2
    [("en", [("g", ⟨"\x7b\x7b.A\x7d\x7d", CompileState.uncompiled⟩)])] "en" "g" []
    (by decide)⟩

mutual
theorem recGet_mono : ∀ (mid : String) (raw : TomlValue) (mp mp' : Msgs),
    recGetMessages mid raw mp = Except.ok mp' →
    ∀ k v, lookupA mp k = some v → lookupA mp' k = some v
  | mid, TomlValue.str data, mp, mp', h, k, v, hk => by
    rw [recGetMessages] at h
    by_cases hd : data = ""
    · rw [if_pos hd] at h
      exact absurd h (by simp)
    · rw [if_neg hd] at h
      cases hold : lookupA mp mid with
      | some old =>
        rw [hold] at h
        exact absurd h (by simp)
      | none =>
        rw [hold] at h
        injection h with h
        subst h
        exact lookupA_append_left hk _
  | mid, TomlValue.table es, mp, mp', h, k, v, hk => by
    rw [recGetMessages] at h
    exact recGetEntries_mono mid es mp mp' h k v hk
  | mid, TomlValue.other, mp, mp', h, k, v, hk => by
    rw [recGetMessages] at h
    exact absurd h (by simp)
theorem recGetEntries_mono : ∀ (mid : String) (es : TomlEntries) (mp mp' : Msgs),
    recGetEntries mid es mp = Except.ok mp' →
    ∀ k v, lookupA mp k = some v → lookupA mp' k = some v
  | mid, TomlEntries.nil, mp, mp', h, k, v, hk => by
    rw [recGetEntries] at h
    injection h with h
    subst h
    exact hk
  | mid, TomlEntries.cons k0 v0 rest, mp, mp', h, k, v, hk => by
    rw [recGetEntries] at h
    cases h1 : recGetMessages (if mid = "" then k0 else mid ++ "." ++ k0) v0 mp with
    | error e =>
      rw [h1] at h
      exact absurd h (by simp)
    | ok mp1 =>
      rw [h1] at h
      exact recGetEntries_mono mid rest mp1 mp' h k v
        (recGet_mono _ v0 mp mp1 h1 k v hk)
end

mutual
theorem recGet_leaf : ∀ (mid : String) (raw : TomlValue) (mp mp' : Msgs),
    recGetMessages mid raw mp = Except.ok mp' →
    ∀ path s, LeafAt raw path s →
    lookupA mp' (joinId mid path) = some ⟨s, CompileState.uncompiled⟩
  | mid, TomlValue.str data, mp, mp', h, path, s, hl => by
    cases hl
    rw [recGetMessages] at h
    by_cases hd : data = ""
    · rw [if_pos hd] at h
      exact absurd h (by simp)
    · rw [if_neg hd] at h
      cases hold : lookupA mp mid with
      | some old =>
        rw [hold] at h
        exact absurd h (by simp)
      | none =>
        rw [hold] at h
        injection h with h
        subst h
        rw [joinId, lookupA_append_of_none hold]
        simp [lookupA]
  | mid, TomlValue.table es, mp, mp', h, path, s, hl => by
    cases hl with
    | table hes =>
      rw [recGetMessages] at h
      exact recGetEntries_leaf mid es mp mp' h path s hes
  | mid, TomlValue.other, mp, mp', h, path, s, hl => by
    cases hl
theorem recGetEntries_leaf : ∀ (mid : String) (es : TomlEntries) (mp mp' : Msgs),
    recGetEntries mid es mp = Except.ok mp' →
    ∀ path s, LeafAtEntries es path s →
    lookupA mp' (joinId mid path) = some ⟨s, CompileState.uncompiled⟩
  | mid, TomlEntries.nil, mp, mp', h, path, s, hl => by
    cases hl
  | mid, TomlEntries.cons k0 v0 rest, mp, mp', h, path, s, hl => by
    rw [recGetEntries] at h
    cases h1 : recGetMessages (if mid = "" then k0 else mid ++ "." ++ k0) v0 mp with
    | error e =>
      rw [h1] at h
      exact absurd h (by simp)
    | ok mp1 =>
      rw [h1] at h
      cases hl with
      | head hleaf =>
        rw [joinId]
        exact recGetEntries_mono mid rest mp1 mp' h _ _
          (recGet_leaf _ v0 mp mp1 h1 _ s hleaf)
      | tail htail => exact recGetEntries_leaf mid rest mp1 mp' h path s htail
end

theorem intercalate_dot_pair (a b : String) (l : List String) :
    String.intercalate "." (a :: b :: l) = String.intercalate "." ((a ++ "." ++ b) :: l) := rfl

theorem intercalate_dot_single (a : String) : String.intercalate "." [a] = a := rfl

theorem append_dot_ne_empty (a b : String) : a ++ "." ++ b ≠ "" := by
  intro hc
  have hlen := congrArg String.length hc
  rw [String.length_append, String.length_append] at hlen
  have hdot : ("." : String).length = 1 := rfl
  have hnil : ("" : String).length = 0 := rfl
  rw [hdot, hnil] at hlen
  omega

theorem joinId_eq_intercalate : ∀ (rest : List String) (mid : String), mid ≠ "" →
    joinId mid rest = String.intercalate "." (mid :: rest)
  | [], mid, _ => by
    rw [joinId, intercalate_dot_single]
  | k :: rest, mid, h => by
    rw [joinId, if_neg h, intercalate_dot_pair,
      joinId_eq_intercalate rest (mid ++ "." ++ k) (append_dot_ne_empty mid k)]

theorem lookupA_ensureLocale (loc : Localizer) (lang : String) :
    lookupA (ensureLocale loc lang) lang = some ((lookupA loc lang).getD []) := by
  rw [ensureLocale]
  cases hc : lookupA loc lang with
  | none =>
    rw [if_pos rfl, lookupA_append_of_none hc]
    simp [lookupA]
  | some mp =>
    rw [if_neg (by simp [hc]), hc]
    rfl

theorem lookupA_ensureLocale_ne (loc : Localizer) (lang lang0 : String) (h : lang ≠ lang0) :
    lookupA (ensureLocale loc lang0) lang = lookupA loc lang := by
  rw [ensureLocale]
  by_cases hc : lookupA loc lang0 = none
  · rw [if_pos hc]
    cases hl : lookupA loc lang with
    | some mp => exact lookupA_append_left hl _
    | none =>
      rw [lookupA_append_of_none hl]
      have hne : ¬ lang0 = lang := fun hx => h hx.symm
      simp [lookupA, hne]
  · rw [if_neg hc]

/-- Claim C5: flattening a parsed document turns a string leaf reached
through nested keys `k :: ks` (first key nonempty; the code treats an
empty accumulated prefix as top level) into the dot-joined message id
`String.intercalate "." (k :: ks)` carrying the leaf as raw content, and
a file processed into an already-populated catalog accumulates: every
message present before is still present, unchanged, afterwards. -/
theorem c5_flatten_dot_paths_and_accumulate :
    (∀ (raw : TomlValue) (mp mp' : Msgs),
      recGetMessages "" raw mp = Except.ok mp' →
      ∀ (k : String) (ks : List String) (s : String), k ≠ "" →
      LeafAt raw (k :: ks) s →
      lookupA mp' (String.intercalate "." (k :: ks)) =
        some ⟨s, CompileState.uncompiled⟩) ∧
    (∀ (validTag : String → Bool) (f : LocaleFile) (loc loc' : Localizer),
      processFile validTag loc f = Except.ok loc' →
      ∀ lang k m, lookupMessage loc lang k = some m → lookupMessage loc' lang k = some m) := by
  constructor
  · intro raw mp mp' h k ks s hk hl
    have hj : joinId "" (k :: ks) = String.intercalate "." (k :: ks) := by
      rw [joinId, if_pos rfl, joinId_eq_intercalate ks k hk]
    rw [← hj]
    exact recGet_leaf "" raw mp mp' h (k :: ks) s hl
  · intro vt f loc loc' h lang k m hm
    obtain ⟨mpL, hm1, hm2⟩ := lookupMessage_eq_some.mp hm
    rw [processFile] at h
    by_cases hskip : (splitName f.name).length = 2 ∧ (splitName f.name).getD 1 "" = "go"
    · rw [if_pos hskip] at h
      injection h with h
      subst h
      exact hm
    · rw [if_neg hskip] at h
      by_cases hshape : (splitName f.name).length = 3 ∧ (splitName f.name).getD 2 "" = "toml"
      · rw [if_neg (not_not_intro hshape)] at h
        by_cases htag : vt ((splitName f.name).getD 1 "") = true
        · rw [if_neg (not_not_intro htag)] at h
          cases hf : f.content with
          | unreadable =>
            rw [hf] at h
            dsimp only at h
            exact absurd h (by simp)
          | unparseable =>
            rw [hf] at h
            dsimp only at h
            exact absurd h (by simp)
          | parsed raw =>
            rw [hf] at h
            dsimp only at h
            cases hrec : recGetMessages "" raw
                ((lookupA loc ((splitName f.name).getD 1 "")).getD []) with
            | error e =>
              rw [hrec] at h
              exact absurd h (by simp)
            | ok mp2 =>
              rw [hrec] at h
              injection h with h
              subst h
              by_cases hlang : lang = (splitName f.name).getD 1 ""
              · subst hlang
                rw [lookupMessage, lookupA_updateFirst_map, lookupA_ensureLocale]
                simp only [Option.map]
                rw [hm1] at hrec
                exact recGet_mono "" raw mpL mp2 hrec k m hm2
              · rw [lookupMessage, lookupA_updateFirst_ne _ hlang,
                  lookupA_ensureLocale_ne loc lang _ hlang, hm1]
                exact hm2
        · rw [if_pos (by simpa using htag)] at h
          exact absurd h (by simp)
      · rw [if_pos hshape] at h
        exact absurd h (by simp)

/-- Witness for C5 at a concrete two-level document and a concrete file
loaded on top of an existing locale table. -/
theorem c5_flatten_dot_paths_and_accumulate_witness :
    (recGetMessages "" (TomlValue.table (TomlEntries.cons "Order"
        (TomlValue.table (TomlEntries.cons "NotFound" (TomlValue.str "Order not found")
          TomlEntries.nil)) TomlEntries.nil)) [] =
      Except.ok [("Order.NotFound", ⟨"Order not found", CompileState.uncompiled⟩)] ∧
      ("Order" : String) ≠ "" ∧
      LeafAt (TomlValue.table (TomlEntries.cons "Order"
        (TomlValue.table (TomlEntries.cons "NotFound" (TomlValue.str "Order not found")
          TomlEntries.nil)) TomlEntries.nil)) ["Order", "NotFound"] "Order not found" ∧
      lookupA [("Order.NotFound", (⟨"Order not found", CompileState.uncompiled⟩ : Message))]
        (String.intercalate "." ["Order", "NotFound"]) =
        some ⟨"Order not found", CompileState.uncompiled⟩) ∧
    (processFile (fun _ => true)
        [("en", [("old", ⟨"x", CompileState.uncompiled⟩)])]
        ⟨"mod.en.toml", FileContent.parsed (TomlValue.table (TomlEntries.cons "fresh"
          (TomlValue.str "y") TomlEntries.nil))⟩ =
      Except.ok [("en", [("old", ⟨"x", CompileState.uncompiled⟩),
        ("fresh", ⟨"y", CompileState.uncompiled⟩)])] ∧
      lookupMessage [("en", [("old", ⟨"x", CompileState.uncompiled⟩)])] "en" "old" =
        some ⟨"x", CompileState.uncompiled⟩ ∧
      lookupMessage [("en", [("old", ⟨"x", CompileState.uncompiled⟩),
        ("fresh", ⟨"y", CompileState.uncompiled⟩)])] "en" "old" =
        some ⟨"x", CompileState.uncompiled⟩) := by
  refine ⟨⟨by decide, by decide, ?_, ?_⟩, by decide, by decide, ?_⟩
  · exact LeafAt.table (LeafAtEntries.head (LeafAt.table
      (LeafAtEntries.head (LeafAt.here "Order not found"))))
  · exact c5_flatten_dot_paths_and_accumulate.1
      (TomlValue.table (TomlEntries.cons "Order"
        (TomlValue.table (TomlEntries.cons "NotFound" (TomlValue.str "Order not found")
          TomlEntries.nil)) TomlEntries.nil))
      [] [("Order.NotFound", ⟨"Order not found", CompileState.uncompiled⟩)]
      (by decide) "Order" ["NotFound"] "Order not found" (by decide)
      (LeafAt.table (LeafAtEntries.head (LeafAt.table
        (LeafAtEntries.head (LeafAt.here "Order not found")))))
  · exact c5_flatten_dot_paths_and_accumulate.2 (fun _ => true)
      ⟨"mod.en.toml", FileContent.parsed (TomlValue.table (TomlEntries.cons "fresh"
        (TomlValue.str "y") TomlEntries.nil))⟩
      [("en", [("old", ⟨"x", CompileState.uncompiled⟩)])]
      [("en", [("old", ⟨"x", CompileState.uncompiled⟩),
        ("fresh", ⟨"y", CompileState.uncompiled⟩)])]
      (by decide) "en" "old" ⟨"x", CompileState.uncompiled⟩ (by decide)

/-- Claim C6: loading fails fatally exactly on the listed triggers and
otherwise succeeds — an unreadable directory; a filename that is not
`<module>.<locale>.toml` (except a two-segment `<name>.go`, silently
skipped); an invalid locale tag; an unreadable file; an unparseable
document; and, from flattening, a non-string non-table leaf, an
empty-string leaf, or a message id already present for the locale, the
duplicate error reporting both the pre-existing and the conflicting
content. -/
theorem c6_load_failure_triggers :
    (∀ validTag : String → Bool,
      RegisterI18n validTag none = Except.error RegError.dirUnreadable) ∧
    (∀ (vt : String → Bool) (loc : Localizer) (f : LocaleFile),
      (splitName f.name).length = 2 → (splitName f.name).getD 1 "" = "go" →
      processFile vt loc f = Except.ok loc) ∧
    (∀ (vt : String → Bool) (loc : Localizer) (f : LocaleFile),
      ¬ ((splitName f.name).length = 2 ∧ (splitName f.name).getD 1 "" = "go") →
      ¬ ((splitName f.name).length = 3 ∧ (splitName f.name).getD 2 "" = "toml") →
      processFile vt loc f = Except.error (RegError.badFilename f.name)) ∧
    (∀ (vt : String → Bool) (loc : Localizer) (f : LocaleFile),
      (splitName f.name).length = 3 → (splitName f.name).getD 2 "" = "toml" →
      vt ((splitName f.name).getD 1 "") = false →
      processFile vt loc f = Except.error (RegError.invalidTag ((splitName f.name).getD 1 ""))) ∧
    (∀ (vt : String → Bool) (loc : Localizer) (f : LocaleFile),
      (splitName f.name).length = 3 → (splitName f.name).getD 2 "" = "toml" →
      vt ((splitName f.name).getD 1 "") = true → f.content = FileContent.unreadable →
      processFile vt loc f = Except.error (RegError.fileUnreadable f.name)) ∧
    (∀ (vt : String → Bool) (loc : Localizer) (f : LocaleFile),
      (splitName f.name).length = 3 → (splitName f.name).getD 2 "" = "toml" →
      vt ((splitName f.name).getD 1 "") = true → f.content = FileContent.unparseable →
      processFile vt loc f = Except.error (RegError.unmarshalError f.name)) ∧
    (∀ (vt : String → Bool) (loc : Localizer) (f : LocaleFile) (raw : TomlValue)
      (e : LoadError),
      (splitName f.name).length = 3 → (splitName f.name).getD 2 "" = "toml" →
      vt ((splitName f.name).getD 1 "") = true → f.content = FileContent.parsed raw →
      recGetMessages "" raw ((lookupA loc ((splitName f.name).getD 1 "")).getD []) =
        Except.error e →
      processFile vt loc f = Except.error (RegError.loadError e)) ∧
    (∀ (vt : String → Bool) (loc : Localizer) (f : LocaleFile) (raw : TomlValue) (mp' : Msgs),
      (splitName f.name).length = 3 → (splitName f.name).getD 2 "" = "toml" →
      vt ((splitName f.name).getD 1 "") = true → f.content = FileContent.parsed raw →
      recGetMessages "" raw ((lookupA loc ((splitName f.name).getD 1 "")).getD []) =
        Except.ok mp' →
      processFile vt loc f = Except.ok (updateFirst
        (ensureLocale loc ((splitName f.name).getD 1 ""))
        ((splitName f.name).getD 1 "") (fun _ => mp'))) ∧
    (∀ (mid : String) (mp : Msgs),
      recGetMessages mid (TomlValue.str "") mp = Except.error (LoadError.emptyMessage mid)) ∧
    (∀ (mid d : String) (mp : Msgs) (old : Message), d ≠ "" → lookupA mp mid = some old →
      recGetMessages mid (TomlValue.str d) mp =
        Except.error (LoadError.duplicate mid old.data d)) ∧
    (∀ (mid : String) (mp : Msgs),
      recGetMessages mid TomlValue.other mp = Except.error LoadError.unsupported) := by
  refine ⟨fun _ => rfl, ?_, ?_, ?_, ?_, ?_, ?_, ?_, ?_, ?_, ?_⟩
  · intro vt loc f h2 hgo
    rw [processFile, if_pos ⟨h2, hgo⟩]
  · intro vt loc f hskip hshape
    rw [processFile, if_neg hskip, if_pos hshape]
  · intro vt loc f h3 htoml htag
    have hskip : ¬ ((splitName f.name).length = 2 ∧ (splitName f.name).getD 1 "" = "go") := by
      intro hc
      have h1 := hc.1
      omega
    rw [processFile, if_neg hskip, if_neg (not_not_intro ⟨h3, htoml⟩),
      if_pos (by rw [htag]; decide)]
  · intro vt loc f h3 htoml htag hf
    have hskip : ¬ ((splitName f.name).length = 2 ∧ (splitName f.name).getD 1 "" = "go") := by
      intro hc
      have h1 := hc.1
      omega
    rw [processFile, if_neg hskip, if_neg (not_not_intro ⟨h3, htoml⟩),
      if_neg (not_not_intro htag), hf]
  · intro vt loc f h3 htoml htag hf
    have hskip : ¬ ((splitName f.name).length = 2 ∧ (splitName f.name).getD 1 "" = "go") := by
      intro hc
      have h1 := hc.1
      omega
    rw [processFile, if_neg hskip, if_neg (not_not_intro ⟨h3, htoml⟩),
      if_neg (not_not_intro htag), hf]
  · intro vt loc f raw e h3 htoml htag hf hrec
    have hskip : ¬ ((splitName f.name).length = 2 ∧ (splitName f.name).getD 1 "" = "go") := by
      intro hc
      have h1 := hc.1
      omega
    rw [processFile, if_neg hskip, if_neg (not_not_intro ⟨h3, htoml⟩),
      if_neg (not_not_intro htag), hf]
    dsimp only
    rw [hrec]
  · intro vt loc f raw mp' h3 htoml htag hf hrec
    have hskip : ¬ ((splitName f.name).length = 2 ∧ (splitName f.name).getD 1 "" = "go") := by
      intro hc
      have h1 := hc.1
      omega
    rw [processFile, if_neg hskip, if_neg (not_not_intro ⟨h3, htoml⟩),
      if_neg (not_not_intro htag), hf]
    dsimp only
    rw [hrec]
  · intro mid mp
    rw [recGetMessages, if_pos rfl]
  · intro mid d mp old hd hold
    rw [recGetMessages, if_neg hd, hold]
  · intro mid mp
    rw [recGetMessages]

/-- Witness for C6: each trigger fired at a concrete input — unreadable
directory, skipped `.go` file, bad filename shape, rejected locale tag,
unreadable file, unparseable file, unsupported leaf, empty leaf,
duplicate id (reporting old and new content), plus a successful load. -/
theorem c6_load_failure_triggers_witness :
    (RegisterI18n (fun _ => true) none = Except.error RegError.dirUnreadable) ∧
    (processFile (fun _ => true) [] ⟨"gen.go", FileContent.unreadable⟩ = Except.ok []) ∧
    (processFile (fun _ => true) [] ⟨"bad.toml", FileContent.unreadable⟩ =
      Except.error (RegError.badFilename "bad.toml")) ∧
    (processFile (fun _ => false) [] ⟨"mod.xx.toml", FileContent.unreadable⟩ =
      Except.error (RegError.invalidTag "xx")) ∧
    (processFile (fun _ => true) [] ⟨"mod.en.toml", FileContent.unreadable⟩ =
      Except.error (RegError.fileUnreadable "mod.en.toml")) ∧
    (processFile (fun _ => true) [] ⟨"mod.en.toml", FileContent.unparseable⟩ =
      Except.error (RegError.unmarshalError "mod.en.toml")) ∧
    (processFile (fun _ => true) [] ⟨"mod.en.toml", FileContent.parsed TomlValue.other⟩ =
      Except.error (RegError.loadError LoadError.unsupported)) ∧
    (processFile (fun _ => true) [] ⟨"mod.en.toml", FileContent.parsed
        (TomlValue.table (TomlEntries.cons "Greeting" (TomlValue.str "Hello")
          TomlEntries.nil))⟩ =
      Except.ok [("en", [("Greeting", ⟨"Hello", CompileState.uncompiled⟩)])]) ∧
    (recGetMessages "Empty" (TomlValue.str "") [] =
      Except.error (LoadError.emptyMessage "Empty")) ∧
    (recGetMessages "Dup" (TomlValue.str "new text")
        [("Dup", ⟨"old text", CompileState.uncompiled⟩)] =
      Except.error (LoadError.duplicate "Dup" "old text" "new text")) ∧
    (recGetMessages "Bad" TomlValue.other [] = Except.error LoadError.unsupported) := by
  refine ⟨c6_load_failure_triggers.1 (fun _ => true), ?_, ?_, ?_, ?_, ?_, ?_, ?_, ?_, ?_, ?_⟩
  · exact c6_load_failure_triggers.2.1 (fun _ => true) [] ⟨"gen.go", FileContent.unreadable⟩
      (by decide) (by decide)
  · exact c6_load_failure_triggers.2.2.1 (fun _ => true) []
      ⟨"bad.toml", FileContent.unreadable⟩ (by decide) (by decide)
  · exact c6_load_failure_triggers.2.2.2.1 (fun _ => false) []
      ⟨"mod.xx.toml", FileContent.unreadable⟩ (by decide) (by decide) (by decide)
  · exact c6_load_failure_triggers.2.2.2.2.1 (fun _ => true) []
      ⟨"mod.en.toml", FileContent.unreadable⟩ (by decide) (by decide) (by decide) rfl
  · exact c6_load_failure_triggers.2.2.2.2.2.1 (fun _ => true) []
      ⟨"mod.en.toml", FileContent.unparseable⟩ (by decide) (by decide) (by decide) rfl
  · exact c6_load_failure_triggers.2.2.2.2.2.2.1 (fun _ => true) []
      ⟨"mod.en.toml", FileContent.parsed TomlValue.other⟩ TomlValue.other
      LoadError.unsupported (by decide) (by decide) (by decide) rfl (by decide)
  · have h := c6_load_failure_triggers.2.2.2.2.2.2.2.1 (fun _ => true) []
      ⟨"mod.en.toml", FileContent.parsed (TomlValue.table (TomlEntries.cons "Greeting"
        (TomlValue.str "Hello") TomlEntries.nil))⟩
      (TomlValue.table (TomlEntries.cons "Greeting" (TomlValue.str "Hello") TomlEntries.nil))
      [("Greeting", ⟨"Hello", CompileState.uncompiled⟩)]
      (by decide) (by decide) (by decide) rfl (by decide)
    rw [h]
    decide
  · exact c6_load_failure_triggers.2.2.2.2.2.2.2.2.1 "Empty" []
  · exact c6_load_failure_triggers.2.2.2.2.2.2.2.2.2.1 "Dup" "new text"
      [("Dup", ⟨"old text", CompileState.uncompiled⟩)]
      ⟨"old text", CompileState.uncompiled⟩ (by decide) (by decide)
  · exact c6_load_failure_triggers.2.2.2.2.2.2.2.2.2.2 "Bad" []

end I18n
